import Mathlib

/-!
Verification of the TXT-Novel-Reader chapter crawler (`crawler.py`).

The development shallowly embeds the crawler's core logic:
* `is_chapter_link` — the link classifier (crawler.py lines 37-53);
* the container selector (lines 103-128);
* `parse_chapters` — the catalog walker (lines 55-162).

Strings are modelled as `List Char` (Python `str` is a sequence of code
points, and `len`, slicing and `in` act on code points).  URLs are kept
abstract: the walker only ever compares them for equality, resolves a
relative href against a base with `urllib.parse.urljoin`, and passes them
to the page fetcher, so the embedding is polymorphic in a URL type `α`
with decidable equality, and `urljoin` / the fetcher (external
collaborators: `requests`, BeautifulSoup) are explicit function
parameters `resolve : α → List Char → α` and `fetch : α → Option Page`.
`fetch u = none` models both a transport failure (the Python wrapper
returns `None`) and falsy page text, which the walker treats identically
(`if not html: continue`).
-/

namespace NovelReader

/-- Characters treated as whitespace, modelling Python's `str.strip()` /
regex `\s` character class on the characters that actually occur in this
domain (ASCII whitespace plus the no-break and ideographic spaces). -/
def spaceChars : List Char := [' ', '\t', '\n', '\x0b', '\x0c', '\r', ' ', '　']

def pySpace (c : Char) : Bool := decide (c ∈ spaceChars)

/-- Python `str.strip()`: drop leading and trailing whitespace. -/
def strip (l : List Char) : List Char :=
  ((l.dropWhile pySpace).reverse.dropWhile pySpace).reverse

/-- Python `str.startswith`: `prefixB n h` iff `n` is a prefix of `h`. -/
def prefixB : List Char → List Char → Bool
  | [], _ => true
  | _ :: _, [] => false
  | a :: as, b :: bs => decide (a = b) && prefixB as bs

/-- Python's substring test `needle in haystack`. -/
def containsSub (needle haystack : List Char) : Bool :=
  haystack.tails.any (fun t => prefixB needle t)

/- The fixed exclusion vocabulary of `is_chapter_link` (crawler.py line 39). -/

def kwHome : List Char := "首页".data
def kwLogin : List Char := "登录".data
def kwRegister : List Char := "注册".data
def kwPrevPage : List Char := "上一页".data
def kwNextPage : List Char := "下一页".data
def kwBack : List Char := "返回".data
def kwShelf : List Char := "加入书架".data
def kwVote : List Char := "投票".data
def kwMessage : List Char := "留言".data
def kwDownload : List Char := "下载".data
def kwMore : List Char := "更多".data
def kwDirect : List Char := "直达".data
def kwBottom : List Char := "底部".data

def exclude_keywords : List (List Char) :=
  [kwHome, kwLogin, kwRegister, kwPrevPage, kwNextPage, kwBack, kwShelf,
   kwVote, kwMessage, kwDownload, kwMore, kwDirect, kwBottom]

/- The catalog-redirect phrases and href checks (crawler.py lines 76-78)
and the pagination phrase (line 150). -/

def kwSeeMore : List Char := "查看更多".data
def kwAllChapters : List Char := "全部章节".data
def kwFullCatalog : List Char := "完整目录".data
def kwJavascript : List Char := "javascript".data
def kwHash : List Char := "#".data

/-- The CJK numeral alternatives of the chapter-marker character class
`[0-9一二三四五六七八九十百千]` (crawler.py line 45). -/
def cjkNumerals : List Char := "一二三四五六七八九十百千".data

def cjkDigit (c : Char) : Bool := c.isDigit || decide (c ∈ cjkNumerals)

/-- The unit character class `[章回节]` of the chapter-marker pattern. -/
def unitChar (c : Char) : Bool :=
  decide (c = '章') || decide (c = '回') || decide (c = '节')

/-- Anchored match of the regex `第[0-9一二三四五六七八九十百千]+[章回节]`
at the head of the list.  The greedy `+` with backtracking is equivalent to
the maximal-run (`takeWhile`) form because the repeated class and the unit
class `[章回节]` are disjoint, so no backtracking split can ever succeed. -/
def markerAt : List Char → Bool
  | [] => false
  | c :: rest =>
    decide (c = '第') && !(rest.takeWhile cjkDigit).isEmpty &&
      (match rest.dropWhile cjkDigit with
       | u :: _ => unitChar u
       | [] => false)

/-- Model of `re.search(r'第[0-9一二三四五六七八九十百千]+[章回节]', text)`
(crawler.py line 45): an unanchored search tries the anchored match at
every suffix. -/
def hasMarker (l : List Char) : Bool := l.tails.any markerAt

/-- The separator class `[\.\s、]` of the second inclusion pattern. -/
def sepChar (c : Char) : Bool := decide (c = '.') || pySpace c || decide (c = '、')

/-- Model of `re.search(r'^\d+[\.\s、]', text)` (crawler.py line 47): a nonempty run
of digits at the start, immediately followed by a separator character.
`\d` is modelled as an ASCII digit.  As with the marker pattern, digits and
separators are disjoint, so maximal-run matching is exact. -/
def startsNumSep (l : List Char) : Bool :=
  !(l.takeWhile Char.isDigit).isEmpty &&
    (match l.dropWhile Char.isDigit with
     | c :: _ => sepChar c
     | [] => false)

/-- Model of `re.match(r'^\d+$', text)` (crawler.py line 49): nonempty, all digits. -/
def allDigits (l : List Char) : Bool := !l.isEmpty && l.all Char.isDigit

/-- The link classifier (crawler.py lines 37-53).  The `href` argument is
taken but never inspected, exactly as in the source. -/
def is_chapter_link (text href : List Char) : Bool :=
  if exclude_keywords.any (fun k => containsSub k text) then false
  else if hasMarker text then true
  else if startsNumSep text then true
  else if allDigits text then true
  else decide (text.length > 2)

/- Example texts used in the spec's testable properties. -/

def exMarkerText : List Char := "第12章 启程".data
def exDigitsText : List Char := "123".data
def exNumSepText : List Char := "1. 启程".data
def exMoreText : List Char := "更多".data
def exNextMarkerText : List Char := "下一页 第1章".data

def exShortText : List Char := "ab".data
def exThreeText : List Char := "abc".data

/-!
## Spec-side readings of the inclusion patterns (for the refinement claim
about the classifier): these follow the spec's words, to be compared with
the executable matchers taken from the source's regexes.
-/

/-- Spec wording: the text matches the chapter-marker pattern — 第
followed by Arabic digits or CJK numerals followed by 章/回/节 —
somewhere in the text. -/
def MarkerMatch (l : List Char) : Prop :=
  ∃ pre run u post, l = pre ++ '第' :: (run ++ u :: post) ∧ run ≠ [] ∧
    (∀ c ∈ run, cjkDigit c = true) ∧ unitChar u = true

/-- Spec wording: the text starts with digits followed by a period,
whitespace, or the ideographic comma. -/
def DigitsThenSep (l : List Char) : Prop :=
  ∃ run c post, l = run ++ c :: post ∧ run ≠ [] ∧
    (∀ x ∈ run, x.isDigit = true) ∧ (c = '.' ∨ pySpace c = true ∨ c = '、')

/-- Spec wording: the text is composed entirely of digits. -/
def PureDigits (l : List Char) : Prop := l ≠ [] ∧ ∀ c ∈ l, c.isDigit = true

/-!
## Data model of a fetched page

BeautifulSoup parsing is an external collaborator; a parsed page is
modelled by exactly the three views the walker reads from it:
* `selectorContainers` — for the fixed priority selector list
  `['#list', '.list', '.catalog', '.chapter-list', '.book_list',
  '.directory', '.box_con', '#chapterlist']`, the containers produced by
  `for selector in selectors: for container in soup.select(selector)`,
  in that iteration order, each container abstracted to its list of
  descendant anchors (`container.find_all('a')`);
* `divContainers` — the anchor lists of all `div` elements in document
  order (`soup.find_all('div')`);
* `anchors` — the whole-page anchor list (`soup.find_all('a')`).

An anchor carries `a.get_text()` (raw, unstripped) and `a.get('href')`
(`none` when the attribute is missing).
-/

structure Anchor where
  text : List Char
  href : Option (List Char)
deriving DecidableEq

structure Page where
  selectorContainers : List (List Anchor)
  divContainers : List (List Anchor)
  anchors : List Anchor
deriving DecidableEq

/-- One discovered chapter: `{'title': text, 'url': full_url}`
(crawler.py lines 139-142). -/
structure Chapter (α : Type) where
  title : List Char
  url : α
deriving DecidableEq

/-!
## Container selector (crawler.py lines 103-128)
-/

/-- The running best-container scan: fold the candidate anchor lists over
a `(best, max_link_count)` pair, replacing the best when a candidate has
more than `thresh` anchors and strictly more than the running maximum.
With `thresh = 0` this is the priority-selector phase (lines 111-116,
where the guard is just `len(links) > max_link_count`, equivalent because
the running maximum starts at 0); with `thresh = 20` it is the div
fallback phase (lines 119-126). -/
def bestOf (thresh : Nat) : List (List Anchor) → Option (List Anchor) × Nat →
    Option (List Anchor) × Nat
  | [], acc => acc
  | c :: rest, (b, m) =>
    if thresh < c.length ∧ m < c.length then bestOf thresh rest (some c, c.length)
    else bestOf thresh rest (b, m)

/-- Result of the priority-selector phase (crawler.py lines 107-116). -/
def selectorBest (p : Page) : Option (List Anchor) :=
  (bestOf 0 p.selectorContainers (none, 0)).1

/-- Result of the all-div fallback scan (crawler.py lines 119-126); in the
source it only runs when the selector phase produced no best container,
and then `max_link_count` is still 0. -/
def divBest (p : Page) : Option (List Anchor) :=
  (bestOf 20 p.divContainers (none, 0)).1

/-- Value of `best_container` after lines 107-126: the div scan runs exactly when
the selector phase left `best_container` unset.  (The Python truthiness
test `if not best_container` coincides with the `None` test here: a
container is only ever selected with at least one descendant anchor, and
a BeautifulSoup tag with contents is truthy.) -/
def bestContainer (p : Page) : Option (List Anchor) :=
  match selectorBest p with
  | some links => some links
  | none => divBest p

/-- Model of `target_links = best_container.find_all('a') if best_container else
soup.find_all('a')` (crawler.py line 128). -/
def targetAnchors (p : Page) : List Anchor :=
  (bestContainer p).getD p.anchors

/-!
## Catalog walker (crawler.py lines 55-162)
-/

/-- The crawl state and, at the end of the run, its observable outcome.
`visited`, `queue`, `chapters` and `pageCount` are `visited_urls`,
`urls_to_visit`, `all_chapters` and `page_count` from the source.
`passes`, `produced` and `fetched` are ghost instrumentation with no
effect on the computation: `passes` records each processed page's
`page_chapters` list, `produced` records every classifier-accepted
candidate *before* URL deduplication, and `fetched` records every URL
passed to the page fetcher, in order. -/
structure CrawlResult (α : Type) where
  visited : List α
  queue : List α
  chapters : List (Chapter α)
  passes : List (List (Chapter α))
  produced : List (Chapter α)
  fetched : List α
  pageCount : Nat
deriving DecidableEq

/-- Drain already-visited URLs from the front of the queue and return the
first unvisited one together with the remaining queue.  This mirrors the
loop head `current_url = urls_to_visit.pop(0); if current_url in
visited_urls: continue` (lines 88-90): popping a visited URL has no other
effect and does not change `page_count`, so consecutive such pops collapse
into one step. -/
def nextUnvisited [DecidableEq α] (visited : List α) : List α → Option (α × List α)
  | [] => none
  | u :: rest => if u ∈ visited then nextUnvisited visited rest else some (u, rest)

/-- One page's extraction pass (crawler.py lines 130-142).  `seen` is the
set of URLs of chapters accepted so far: Python checks membership in
`all_chapters` and in the page-local `page_chapters` separately, which is
equivalent to one seen-set that starts as the accumulated chapters' URLs
and grows with each acceptance on this page. -/
def extractPass [DecidableEq α] (resolve : α → List Char → α) (cur : α) :
    List α → List Anchor → List (Chapter α)
  | _, [] => []
  | seen, a :: rest =>
    let text := strip a.text
    match a.href with
    | some h =>
      if text ≠ [] ∧ h ≠ [] ∧ is_chapter_link text h = true then
        let full := resolve cur h
        if full ∈ seen then extractPass resolve cur seen rest
        else ⟨text, full⟩ :: extractPass resolve cur (full :: seen) rest
      else extractPass resolve cur seen rest
    | none => extractPass resolve cur seen rest

/-- The same pass without deduplication: every anchor the classifier
accepts, in document order (ghost definition used to state that the final
result keeps exactly the first occurrence of each URL). -/
def producedPass (resolve : α → List Char → α) (cur : α) : List Anchor → List (Chapter α)
  | [] => []
  | a :: rest =>
    let text := strip a.text
    match a.href with
    | some h =>
      if text ≠ [] ∧ h ≠ [] ∧ is_chapter_link text h = true then
        ⟨text, resolve cur h⟩ :: producedPass resolve cur rest
      else producedPass resolve cur rest
    | none => producedPass resolve cur rest

/-- Pagination discovery (crawler.py lines 148-154): scan *all* anchors of
the page for the first one whose text contains 下一页 and whose href is
truthy; an anchor whose text matches but whose href is missing or empty
does not stop the scan. -/
def findNextHref : List Anchor → Option (List Char)
  | [] => none
  | a :: rest =>
    if containsSub kwNextPage a.text then
      match a.href with
      | some h => if h ≠ [] then some h else findNextHref rest
      | none => findNextHref rest
    else findNextHref rest

/-- Queue update after processing page `u` (crawler.py lines 148-157):
resolve the first next-page href against `u` and enqueue it at the back
unless it is already visited.  (`urljoin` of a truthy href is nonempty, so
the Python truthiness test on `next_page_url` is always true there.) -/
def nextQueue [DecidableEq α] (resolve : α → List Char → α) (u : α)
    (anchors : List Anchor) (visited queue : List α) : List α :=
  match findNextHref anchors with
  | some h =>
    let nxt := resolve u h
    if nxt ∈ visited then queue else queue ++ [nxt]
  | none => queue

/-- Catalog-redirect detection (crawler.py lines 73-80): the first anchor
whose stripped text contains 查看更多, 全部章节 or 完整目录 and whose href
is truthy, does not start with `javascript` and is not `#`.  As in
`findNextHref`, an anchor that matches on text but fails the href test
does not stop the scan. -/
def findMoreHref : List Anchor → Option (List Char)
  | [] => none
  | a :: rest =>
    let text := strip a.text
    if containsSub kwSeeMore text ∨ containsSub kwAllChapters text ∨
        containsSub kwFullCatalog text then
      match a.href with
      | some h =>
        if h ≠ [] ∧ prefixB kwJavascript h = false ∧ h ≠ kwHash then some h
        else findMoreHref rest
      | none => findMoreHref rest
    else findMoreHref rest

/-- Bookkeeping when a page is dequeued for visiting (crawler.py lines
88-92): mark it visited, drop it from the queue, count it, and (ghost)
record that it is about to be passed to the fetcher. -/
def stepVisit [DecidableEq α] (u : α) (rest : List α) (st : CrawlResult α) :
    CrawlResult α :=
  { st with
    visited := u :: st.visited
    queue := rest
    fetched := st.fetched ++ [u]
    pageCount := st.pageCount + 1 }

/-- Processing of one successfully fetched page (crawler.py lines
99-157): run the extraction pass against the selected container's
anchors, append the page's accepted chapters, and enqueue the first
unvisited next-page link. -/
def stepPage [DecidableEq α] (resolve : α → List Char → α) (u : α)
    (page : Page) (st : CrawlResult α) : CrawlResult α :=
  let pass := extractPass resolve u (st.chapters.map Chapter.url) (targetAnchors page)
  { st with
    chapters := st.chapters ++ pass
    passes := st.passes ++ [pass]
    produced := st.produced ++ producedPass resolve u (targetAnchors page)
    queue := nextQueue resolve u page.anchors st.visited st.queue }

/-- One full loop iteration for a dequeued unvisited URL `u` (crawler.py
lines 91-157): bookkeeping, fetch, and — unless the fetch failed (line
96-97) — page processing. -/
def visitOne [DecidableEq α] (fetch : α → Option Page)
    (resolve : α → List Char → α) (u : α) (rest : List α)
    (st : CrawlResult α) : CrawlResult α :=
  match fetch u with
  | none => stepVisit u rest st
  | some page => stepPage resolve u page (stepVisit u rest st)

/-- The bounded breadth-first walk (crawler.py lines 87-160), by recursion
on the remaining page budget `maxPages - page_count`: the loop guard is
`urls_to_visit and page_count < max_pages`, each processed page (even one
whose fetch fails, line 92 runs before line 95) consumes one unit of
budget, and visited-URL pops consume none but strictly shrink the queue,
so they are collapsed by `nextUnvisited`. -/
def crawlLoop [DecidableEq α] (fetch : α → Option Page)
    (resolve : α → List Char → α) : Nat → CrawlResult α → CrawlResult α
  | 0, st => st
  | Nat.succ budget, st =>
    match nextUnvisited st.visited st.queue with
    | none => { st with queue := [] }
    | some (u, rest) => crawlLoop fetch resolve budget (visitOne fetch resolve u rest st)

/-- Embedding of `parse_chapters` (crawler.py lines 55-162), instrumented: fetch the
start page (line 66; on failure return empty, line 68), run
catalog-redirect detection against it (lines 73-85: when a valid link is
found and resolves to a URL different from the start URL, seed the queue
with that URL and mark the start URL visited), then run the walk with
`max_pages = 50`. -/
def crawlRun [DecidableEq α] (fetch : α → Option Page)
    (resolve : α → List Char → α) (start : α) : CrawlResult α :=
  match fetch start with
  | none => ⟨[], [], [], [], [], [start], 0⟩
  | some firstPage =>
    match findMoreHref firstPage.anchors with
    | some h =>
      let m := resolve start h
      if m ≠ start then
        crawlLoop fetch resolve 50 ⟨[start], [m], [], [], [], [start], 0⟩
      else
        crawlLoop fetch resolve 50 ⟨[], [start], [], [], [], [start], 0⟩
    | none => crawlLoop fetch resolve 50 ⟨[], [start], [], [], [], [start], 0⟩

/-- The value `parse_chapters` returns: the accumulated chapter list. -/
def parse_chapters [DecidableEq α] (fetch : α → Option Page)
    (resolve : α → List Char → α) (start : α) : List (Chapter α) :=
  (crawlRun fetch resolve start).chapters

/-- First-occurrence dedup: `dedupFrom seen l` is the spec-side description of the walker's URL
deduplication — keep a chapter only if its URL is neither in `seen` nor
the URL of an earlier kept chapter (first occurrence wins). -/
def dedupFrom [DecidableEq α] (seen : List α) : List (Chapter α) → List (Chapter α)
  | [] => []
  | c :: rest =>
    if c.url ∈ seen then dedupFrom seen rest
    else c :: dedupFrom (c.url :: seen) rest

/-!
## Concrete sites used as witnesses and counterexamples
-/

/-- A page with no anchors and no containers. -/
def emptyPage : Page := ⟨[], [], []⟩

/-- A site where every URL serves the empty page. -/
def plainFetch : Nat → Option Page := fun _ => some emptyPage

def idResolve : Nat → List Char → Nat := fun b _ => b

/-- Href placeholder for the synthetic next-page chain. -/
def chainHref : List Char := "n".data

/-- A page whose only anchor is a next-page link. -/
def chainPage : Page := ⟨[], [], [⟨kwNextPage, some chainHref⟩]⟩

/-- The synthetic unbounded next-page chain over `Nat` URLs: every page
has one 下一页 anchor, and resolving it against page `n` yields the fresh
page `n + 1`. -/
def chainFetch : Nat → Option Page := fun _ => some chainPage

def chainResolve : Nat → List Char → Nat := fun b _ => b + 1

/-- A site whose start URL is unreachable. -/
def failFetch : Nat → Option Page := fun _ => none

/-- A page with one priority-selector match holding zero anchors: the
selector phase matches but selects nothing. -/
def scanPage : Page := ⟨[[]], [], []⟩

/- A site with a full-catalog redirect: page 0 carries a 查看更多章节 link
to `/full.html`, which resolves to page 1. -/

def w5Href : List Char := "/full.html".data

def w5MoreText : List Char := "查看更多章节".data

def w5StartPage : Page := ⟨[], [], [⟨w5MoreText, some w5Href⟩]⟩

def w5Fetch : Nat → Option Page := fun u =>
  if u = 0 then some w5StartPage else some emptyPage

def w5Resolve : Nat → List Char → Nat := fun _ h => if h = w5Href then 1 else 0

/- A site whose start page lists two chapter links and nothing else. -/

def w8TitleOne : List Char := "第1章".data

def w8HrefOne : List Char := "c1".data

def w8TitleTwo : List Char := "第2章".data

def w8HrefTwo : List Char := "c2".data

def w8Page : Page :=
  ⟨[], [], [⟨w8TitleOne, some w8HrefOne⟩, ⟨w8TitleTwo, some w8HrefTwo⟩]⟩

def w8Fetch : Nat → Option Page := fun u => if u = 0 then some w8Page else none

def w8Resolve : Nat → List Char → Nat := fun _ h => if h = w8HrefOne then 1 else 2

/-!
## Correctness of the string and regex helpers
-/

theorem prefixB_iff : ∀ n h : List Char, prefixB n h = true ↔ n <+: h := by
  intro n
  induction n with
  | nil => intro h; simp [prefixB]
  | cons a as ih =>
    intro h
    cases h with
    | nil => simp [prefixB]
    | cons b bs => simp [prefixB, ih bs, And.comm]

theorem containsSub_iff (n h : List Char) : containsSub n h = true ↔ n <:+: h := by
  simp only [containsSub, List.any_eq_true, List.mem_tails]
  constructor
  · rintro ⟨t, ht, hp⟩
    exact List.infix_iff_prefix_suffix.2 ⟨t, (prefixB_iff n t).1 hp, ht⟩
  · intro hinf
    rcases List.infix_iff_prefix_suffix.1 hinf with ⟨t, hp, ht⟩
    exact ⟨t, ht, (prefixB_iff n t).2 hp⟩

/-- A list that is a run of the predicate followed by a failing character
splits `takeWhile`/`dropWhile` at exactly the run boundary. -/
theorem takeWhile_run {p : Char → Bool} :
    ∀ (run : List Char) (c : Char) (s : List Char), (∀ x ∈ run, p x = true) →
      p c = false →
      (run ++ c :: s).takeWhile p = run ∧ (run ++ c :: s).dropWhile p = c :: s := by
  intro run
  induction run with
  | nil => intro c s _ hc; simp [List.takeWhile_cons, List.dropWhile_cons, hc]
  | cons a as ih =>
    intro c s hall hc
    have ha : p a = true := hall a (by simp)
    have h2 := ih c s (fun x hx => hall x (by simp [hx])) hc
    simp [List.takeWhile_cons, List.dropWhile_cons, ha, h2.1, h2.2]

theorem mem_takeWhile {p : Char → Bool} :
    ∀ (l : List Char), ∀ x ∈ l.takeWhile p, p x = true := by
  intro l
  induction l with
  | nil => simp
  | cons a as ih =>
    intro x hx
    by_cases ha : p a = true
    · rw [List.takeWhile_cons, if_pos ha] at hx
      rcases List.mem_cons.1 hx with h | h
      · exact h ▸ ha
      · exact ih x h
    · rw [List.takeWhile_cons, if_neg ha] at hx
      simp at hx

theorem unit_not_cjk {u : Char} (h : unitChar u = true) : cjkDigit u = false := by
  simp only [unitChar, Bool.or_eq_true, decide_eq_true_eq] at h
  rcases h with (h | h) | h <;> subst h <;> decide

theorem sep_not_digit {c : Char} (h : sepChar c = true) : c.isDigit = false := by
  simp only [sepChar, pySpace, Bool.or_eq_true, decide_eq_true_eq] at h
  rcases h with (h | h) | h
  · subst h; decide
  · fin_cases h <;> decide
  · subst h; decide

/-- Declarative reading of the anchored chapter-marker match. -/
theorem markerAt_iff (l : List Char) :
    markerAt l = true ↔
      ∃ run u post, l = '第' :: (run ++ u :: post) ∧ run ≠ [] ∧
        (∀ c ∈ run, cjkDigit c = true) ∧ unitChar u = true := by
  constructor
  · intro h
    cases l with
    | nil => simp [markerAt] at h
    | cons c rest =>
      simp only [markerAt, Bool.and_eq_true, decide_eq_true_eq] at h
      obtain ⟨⟨hc, hne⟩, hmatch⟩ := h
      subst hc
      cases hd : rest.dropWhile cjkDigit with
      | nil => rw [hd] at hmatch; simp at hmatch
      | cons u s =>
        rw [hd] at hmatch
        refine ⟨rest.takeWhile cjkDigit, u, s, ?_, ?_, mem_takeWhile rest, hmatch⟩
        · have hsplit := List.takeWhile_append_dropWhile (p := cjkDigit) (l := rest)
          rw [hd] at hsplit
          rw [hsplit]
        · simpa using hne
  · rintro ⟨run, u, post, rfl, hne, hall, hu⟩
    have hsplit := takeWhile_run run u post hall
      (by simpa using unit_not_cjk hu)
    simp [markerAt, hsplit.1, hsplit.2, hne, hu]

theorem hasMarker_iff (l : List Char) : hasMarker l = true ↔ MarkerMatch l := by
  simp only [hasMarker, List.any_eq_true, List.mem_tails]
  constructor
  · rintro ⟨t, ht, hm⟩
    rcases (markerAt_iff t).1 hm with ⟨run, u, post, hteq, hne, hall, hu⟩
    rcases ht with ⟨pre, hpre⟩
    exact ⟨pre, run, u, post, by rw [← hpre, hteq], hne, hall, hu⟩
  · rintro ⟨pre, run, u, post, rfl, hne, hall, hu⟩
    exact ⟨'第' :: (run ++ u :: post), ⟨pre, rfl⟩,
      (markerAt_iff _).2 ⟨run, u, post, rfl, hne, hall, hu⟩⟩

theorem startsNumSep_iff (l : List Char) : startsNumSep l = true ↔ DigitsThenSep l := by
  constructor
  · intro h
    simp only [startsNumSep, Bool.and_eq_true] at h
    obtain ⟨hne, hmatch⟩ := h
    cases hd : l.dropWhile Char.isDigit with
    | nil => rw [hd] at hmatch; simp at hmatch
    | cons c s =>
      rw [hd] at hmatch
      refine ⟨l.takeWhile Char.isDigit, c, s, ?_, by simpa using hne,
        mem_takeWhile l, ?_⟩
      · have hsplit := List.takeWhile_append_dropWhile (p := Char.isDigit) (l := l)
        rw [hd] at hsplit
        exact hsplit.symm
      · simp only [sepChar, Bool.or_eq_true, decide_eq_true_eq] at hmatch
        tauto
  · rintro ⟨run, c, s, rfl, hne, hall, hsep⟩
    have hcsep : sepChar c = true := by
      simp only [sepChar, Bool.or_eq_true, decide_eq_true_eq]
      tauto
    have hsplit := takeWhile_run run c s hall (sep_not_digit hcsep)
    simp [startsNumSep, hsplit.1, hsplit.2, hne, hcsep]

theorem allDigits_iff (l : List Char) : allDigits l = true ↔ PureDigits l := by
  simp [allDigits, PureDigits, List.all_eq_true]

/-- With no exclusion keyword firing, the classifier is the disjunction of
its three pattern matchers and the length fallback. -/
theorem is_chapter_link_or (text href : List Char)
    (hany : exclude_keywords.any (fun k => containsSub k text) = false) :
    is_chapter_link text href =
      (hasMarker text || startsNumSep text || allDigits text ||
        decide (text.length > 2)) := by
  simp only [is_chapter_link, hany]
  cases hasMarker text <;> cases startsNumSep text <;> cases allDigits text <;> simp

/-!
## First-occurrence deduplication
-/

theorem dedupFrom_congr [DecidableEq α] :
    ∀ (l : List (Chapter α)) (s s' : List α), (∀ u, u ∈ s ↔ u ∈ s') →
      dedupFrom s l = dedupFrom s' l := by
  intro l
  induction l with
  | nil => intro s s' _; rfl
  | cons c rest ih =>
    intro s s' hss
    simp only [dedupFrom]
    by_cases hc : c.url ∈ s
    · rw [if_pos hc, if_pos ((hss c.url).1 hc)]
      exact ih s s' hss
    · rw [if_neg hc, if_neg (fun h => hc ((hss c.url).2 h))]
      have h2 : ∀ u, u ∈ c.url :: s ↔ u ∈ c.url :: s' := by
        intro u
        simp [hss u]
      rw [ih _ _ h2]

theorem mem_map_url_dedupFrom [DecidableEq α] :
    ∀ (l : List (Chapter α)) (s : List α) (u : α),
      u ∈ (dedupFrom s l).map Chapter.url ↔ u ∈ l.map Chapter.url ∧ u ∉ s := by
  intro l
  induction l with
  | nil => simp [dedupFrom]
  | cons c rest ih =>
    intro s u
    simp only [dedupFrom]
    by_cases hc : c.url ∈ s
    · rw [if_pos hc, ih]
      simp only [List.map_cons, List.mem_cons]
      constructor
      · rintro ⟨h1, h2⟩
        exact ⟨Or.inr h1, h2⟩
      · rintro ⟨h1 | h1, h2⟩
        · subst h1
          exact absurd hc h2
        · exact ⟨h1, h2⟩
    · rw [if_neg hc]
      simp only [List.map_cons, List.mem_cons, ih, List.mem_cons]
      constructor
      · rintro (h | ⟨h1, h2⟩)
        · exact ⟨Or.inl h, h ▸ hc⟩
        · exact ⟨Or.inr h1, fun hs => h2 (Or.inr hs)⟩
      · rintro ⟨h1 | h1, h2⟩
        · exact Or.inl h1
        · by_cases hu : u = c.url
          · exact Or.inl hu
          · refine Or.inr ⟨h1, fun hs => ?_⟩
            rcases hs with h | h
            · exact hu h
            · exact h2 h

theorem nodup_dedupFrom [DecidableEq α] :
    ∀ (l : List (Chapter α)) (s : List α), ((dedupFrom s l).map Chapter.url).Nodup := by
  intro l
  induction l with
  | nil => intro s; simp [dedupFrom]
  | cons c rest ih =>
    intro s
    simp only [dedupFrom]
    by_cases hc : c.url ∈ s
    · rw [if_pos hc]
      exact ih s
    · rw [if_neg hc]
      simp only [List.map_cons, List.nodup_cons]
      refine ⟨fun hmem => ?_, ih _⟩
      rcases (mem_map_url_dedupFrom rest _ c.url).1 hmem with ⟨_, h2⟩
      exact h2 (List.mem_cons_self _ _)

theorem dedupFrom_append [DecidableEq α] :
    ∀ (p q : List (Chapter α)) (s : List α),
      dedupFrom s (p ++ q) =
        dedupFrom s p ++ dedupFrom (p.map Chapter.url ++ s) q := by
  intro p
  induction p with
  | nil => intro q s; simp [dedupFrom]
  | cons c rest ih =>
    intro q s
    simp only [List.cons_append, dedupFrom, List.append_eq]
    by_cases hc : c.url ∈ s
    · rw [if_pos hc, if_pos hc, ih]
      have h2 : ∀ u, u ∈ rest.map Chapter.url ++ s ↔
          u ∈ (c :: rest).map Chapter.url ++ s := by
        intro u
        simp only [List.map_cons, List.mem_append, List.mem_cons]
        constructor
        · tauto
        · rintro ((h | h) | h)
          · subst h
            exact Or.inr hc
          · tauto
          · tauto
      rw [dedupFrom_congr q _ _ h2]
    · rw [if_neg hc, if_neg hc, ih, List.cons_append]
      have h2 : ∀ u, u ∈ rest.map Chapter.url ++ c.url :: s ↔
          u ∈ (c :: rest).map Chapter.url ++ s := by
        intro u
        simp only [List.map_cons, List.mem_append, List.mem_cons]
        tauto
      rw [dedupFrom_congr q _ _ h2]

/-- The walker's per-page extraction is the first-occurrence dedup of the
pre-dedup accepted candidates. -/
theorem extractPass_eq [DecidableEq α] (resolve : α → List Char → α) (cur : α) :
    ∀ (anchors : List Anchor) (seen : List α),
      extractPass resolve cur seen anchors =
        dedupFrom seen (producedPass resolve cur anchors) := by
  intro anchors
  induction anchors with
  | nil => intro seen; rfl
  | cons a rest ih =>
    intro seen
    cases hh : a.href with
    | none =>
      simp only [extractPass, producedPass, hh]
      exact ih seen
    | some h =>
      simp only [extractPass, producedPass, hh]
      by_cases hcond : strip a.text ≠ [] ∧ h ≠ [] ∧
          is_chapter_link (strip a.text) h = true
      · rw [if_pos hcond, if_pos hcond]
        simp only [dedupFrom]
        by_cases hfull : resolve cur h ∈ seen
        · rw [if_pos hfull, if_pos hfull]
          exact ih seen
        · rw [if_neg hfull, if_neg hfull, ih]
      · rw [if_neg hcond, if_neg hcond]
        exact ih seen

/-!
## Walker invariants
-/

@[simp] theorem stepVisit_visited [DecidableEq α] (u : α) (rest : List α)
    (st : CrawlResult α) : (stepVisit u rest st).visited = u :: st.visited := rfl
@[simp] theorem stepVisit_queue [DecidableEq α] (u : α) (rest : List α)
    (st : CrawlResult α) : (stepVisit u rest st).queue = rest := rfl
@[simp] theorem stepVisit_chapters [DecidableEq α] (u : α) (rest : List α)
    (st : CrawlResult α) : (stepVisit u rest st).chapters = st.chapters := rfl
@[simp] theorem stepVisit_passes [DecidableEq α] (u : α) (rest : List α)
    (st : CrawlResult α) : (stepVisit u rest st).passes = st.passes := rfl
@[simp] theorem stepVisit_produced [DecidableEq α] (u : α) (rest : List α)
    (st : CrawlResult α) : (stepVisit u rest st).produced = st.produced := rfl
@[simp] theorem stepVisit_fetched [DecidableEq α] (u : α) (rest : List α)
    (st : CrawlResult α) : (stepVisit u rest st).fetched = st.fetched ++ [u] := rfl
@[simp] theorem stepVisit_pageCount [DecidableEq α] (u : α) (rest : List α)
    (st : CrawlResult α) : (stepVisit u rest st).pageCount = st.pageCount + 1 := rfl

@[simp] theorem stepPage_visited [DecidableEq α] (resolve : α → List Char → α)
    (u : α) (page : Page) (st : CrawlResult α) :
    (stepPage resolve u page st).visited = st.visited := rfl
@[simp] theorem stepPage_chapters [DecidableEq α] (resolve : α → List Char → α)
    (u : α) (page : Page) (st : CrawlResult α) :
    (stepPage resolve u page st).chapters = st.chapters ++
      extractPass resolve u (st.chapters.map Chapter.url) (targetAnchors page) := rfl
@[simp] theorem stepPage_passes [DecidableEq α] (resolve : α → List Char → α)
    (u : α) (page : Page) (st : CrawlResult α) :
    (stepPage resolve u page st).passes = st.passes ++
      [extractPass resolve u (st.chapters.map Chapter.url) (targetAnchors page)] := rfl
@[simp] theorem stepPage_produced [DecidableEq α] (resolve : α → List Char → α)
    (u : α) (page : Page) (st : CrawlResult α) :
    (stepPage resolve u page st).produced =
      st.produced ++ producedPass resolve u (targetAnchors page) := rfl
@[simp] theorem stepPage_fetched [DecidableEq α] (resolve : α → List Char → α)
    (u : α) (page : Page) (st : CrawlResult α) :
    (stepPage resolve u page st).fetched = st.fetched := rfl
@[simp] theorem stepPage_pageCount [DecidableEq α] (resolve : α → List Char → α)
    (u : α) (page : Page) (st : CrawlResult α) :
    (stepPage resolve u page st).pageCount = st.pageCount := rfl

theorem visitOne_fail [DecidableEq α] {fetch : α → Option Page} {u : α}
    (resolve : α → List Char → α) (rest : List α) (st : CrawlResult α)
    (hf : fetch u = none) : visitOne fetch resolve u rest st = stepVisit u rest st := by
  simp [visitOne, hf]

theorem visitOne_page [DecidableEq α] {fetch : α → Option Page} {u : α}
    {page : Page} (resolve : α → List Char → α) (rest : List α)
    (st : CrawlResult α) (hf : fetch u = some page) :
    visitOne fetch resolve u rest st = stepPage resolve u page (stepVisit u rest st) := by
  simp [visitOne, hf]

theorem nextUnvisited_spec [DecidableEq α] :
    ∀ (q visited : List α) (u : α) (rest : List α),
      nextUnvisited visited q = some (u, rest) → u ∉ visited := by
  intro q
  induction q with
  | nil =>
    intro visited u rest h
    simp [nextUnvisited] at h
  | cons a as ih =>
    intro visited u rest h
    simp only [nextUnvisited] at h
    by_cases ha : a ∈ visited
    · rw [if_pos ha] at h
      exact ih visited u rest h
    · rw [if_neg ha] at h
      simp only [Option.some_inj, Prod.mk.injEq] at h
      obtain ⟨rfl, rfl⟩ := h
      exact ha

/-- The page counter grows by at most the remaining budget. -/
theorem crawlLoop_pageCount [DecidableEq α] (fetch : α → Option Page)
    (resolve : α → List Char → α) :
    ∀ (budget : Nat) (st : CrawlResult α),
      (crawlLoop fetch resolve budget st).pageCount ≤ st.pageCount + budget := by
  intro budget
  induction budget with
  | zero =>
    intro st
    simp [crawlLoop]
  | succ b ih =>
    intro st
    rw [crawlLoop]
    cases hnv : nextUnvisited st.visited st.queue with
    | none => exact Nat.le_add_right st.pageCount (b + 1)
    | some p =>
      obtain ⟨u, rest⟩ := p
      show (crawlLoop fetch resolve b (visitOne fetch resolve u rest st)).pageCount ≤
        st.pageCount + (b + 1)
      refine le_trans (ih _) ?_
      cases hf : fetch u with
      | none =>
        rw [visitOne_fail resolve rest st hf]
        simp
        omega
      | some page =>
        rw [visitOne_page resolve rest st hf]
        simp
        omega

/-- The chapter list is always the concatenation of the per-page passes. -/
theorem crawlLoop_flatten [DecidableEq α] (fetch : α → Option Page)
    (resolve : α → List Char → α) :
    ∀ (budget : Nat) (st : CrawlResult α), st.chapters = st.passes.flatten →
      (crawlLoop fetch resolve budget st).chapters =
        (crawlLoop fetch resolve budget st).passes.flatten := by
  intro budget
  induction budget with
  | zero =>
    intro st h
    simpa [crawlLoop] using h
  | succ b ih =>
    intro st h
    rw [crawlLoop]
    cases hnv : nextUnvisited st.visited st.queue with
    | none => exact h
    | some p =>
      obtain ⟨u, rest⟩ := p
      show (crawlLoop fetch resolve b (visitOne fetch resolve u rest st)).chapters =
        (crawlLoop fetch resolve b (visitOne fetch resolve u rest st)).passes.flatten
      refine ih _ ?_
      cases hf : fetch u with
      | none =>
        rw [visitOne_fail resolve rest st hf]
        simpa using h
      | some page =>
        rw [visitOne_page resolve rest st hf]
        simp [h]

/-- The chapter list is always the first-occurrence dedup of the ghost
pre-dedup candidate trace. -/
theorem crawlLoop_dedup [DecidableEq α] (fetch : α → Option Page)
    (resolve : α → List Char → α) :
    ∀ (budget : Nat) (st : CrawlResult α),
      st.chapters = dedupFrom [] st.produced →
      (crawlLoop fetch resolve budget st).chapters =
        dedupFrom [] (crawlLoop fetch resolve budget st).produced := by
  intro budget
  induction budget with
  | zero =>
    intro st h
    simpa [crawlLoop] using h
  | succ b ih =>
    intro st h
    rw [crawlLoop]
    cases hnv : nextUnvisited st.visited st.queue with
    | none => exact h
    | some p =>
      obtain ⟨u, rest⟩ := p
      show (crawlLoop fetch resolve b (visitOne fetch resolve u rest st)).chapters =
        dedupFrom [] (crawlLoop fetch resolve b (visitOne fetch resolve u rest st)).produced
      refine ih _ ?_
      cases hf : fetch u with
      | none =>
        rw [visitOne_fail resolve rest st hf]
        simpa using h
      | some page =>
        rw [visitOne_page resolve rest st hf]
        simp only [stepPage_chapters, stepPage_produced, stepVisit_chapters,
          stepVisit_produced]
        rw [extractPass_eq, dedupFrom_append, h]
        congr 1
        apply dedupFrom_congr
        intro x
        rw [mem_map_url_dedupFrom]
        simp

/-- URLs fetched by the walk are fresh: they extend the fetch trace with a
duplicate-free list disjoint from the starting visited set. -/
theorem crawlLoop_fetched [DecidableEq α] (fetch : α → Option Page)
    (resolve : α → List Char → α) :
    ∀ (budget : Nat) (st : CrawlResult α),
      ∃ new, (crawlLoop fetch resolve budget st).fetched = st.fetched ++ new ∧
        new.Nodup ∧ ∀ x ∈ new, x ∉ st.visited := by
  intro budget
  induction budget with
  | zero =>
    intro st
    exact ⟨[], by simp [crawlLoop], List.nodup_nil, by simp⟩
  | succ b ih =>
    intro st
    rw [crawlLoop]
    cases hnv : nextUnvisited st.visited st.queue with
    | none =>
      refine ⟨[], ?_, List.nodup_nil, by simp⟩
      show st.fetched = st.fetched ++ []
      simp
    | some p =>
      obtain ⟨u, rest⟩ := p
      have hu : u ∉ st.visited := nextUnvisited_spec _ _ _ _ hnv
      show ∃ new, (crawlLoop fetch resolve b (visitOne fetch resolve u rest st)).fetched =
        st.fetched ++ new ∧ new.Nodup ∧ ∀ x ∈ new, x ∉ st.visited
      have hv : (visitOne fetch resolve u rest st).visited = u :: st.visited := by
        cases hf : fetch u with
        | none =>
          rw [visitOne_fail resolve rest st hf]
          simp
        | some page =>
          rw [visitOne_page resolve rest st hf]
          simp
      have hfe : (visitOne fetch resolve u rest st).fetched = st.fetched ++ [u] := by
        cases hf : fetch u with
        | none =>
          rw [visitOne_fail resolve rest st hf]
          simp
        | some page =>
          rw [visitOne_page resolve rest st hf]
          simp
      obtain ⟨new, h1, h2, h3⟩ := ih (visitOne fetch resolve u rest st)
      refine ⟨u :: new, ?_, ?_, ?_⟩
      · rw [h1, hfe]
        simp
      · refine List.nodup_cons.2 ⟨fun hm => ?_, h2⟩
        exact h3 u hm (hv.symm ▸ List.mem_cons_self u st.visited)
      · intro x hx
        rcases List.mem_cons.1 hx with rfl | hxm
        · exact hu
        · intro hvx
          exact h3 x hxm (hv.symm ▸ List.mem_cons_of_mem u hvx)

/-!
## Unfolding the run entry point
-/

theorem crawlRun_fail [DecidableEq α] {fetch : α → Option Page}
    (resolve : α → List Char → α) (start : α) (hf : fetch start = none) :
    crawlRun fetch resolve start = ⟨[], [], [], [], [], [start], 0⟩ := by
  simp [crawlRun, hf]

theorem crawlRun_noMore [DecidableEq α] {fetch : α → Option Page} {start : α}
    {p : Page} (resolve : α → List Char → α) (hf : fetch start = some p)
    (hm : findMoreHref p.anchors = none) :
    crawlRun fetch resolve start =
      crawlLoop fetch resolve 50 ⟨[], [start], [], [], [], [start], 0⟩ := by
  simp [crawlRun, hf, hm]

theorem crawlRun_more [DecidableEq α] {fetch : α → Option Page} {start : α}
    {p : Page} {h : List Char} (resolve : α → List Char → α)
    (hf : fetch start = some p) (hm : findMoreHref p.anchors = some h)
    (hne : resolve start h ≠ start) :
    crawlRun fetch resolve start =
      crawlLoop fetch resolve 50 ⟨[start], [resolve start h], [], [], [], [start], 0⟩ := by
  simp [crawlRun, hf, hm, hne]

theorem crawlRun_moreSame [DecidableEq α] {fetch : α → Option Page} {start : α}
    {p : Page} {h : List Char} (resolve : α → List Char → α)
    (hf : fetch start = some p) (hm : findMoreHref p.anchors = some h)
    (heq : resolve start h = start) :
    crawlRun fetch resolve start =
      crawlLoop fetch resolve 50 ⟨[], [start], [], [], [], [start], 0⟩ := by
  simp [crawlRun, hf, hm, heq]

/-- Every run is either the fetch-failure result or the walk started on an
initial state with empty chapter/pass/candidate lists, the start fetch
recorded, and a zero page count. -/
theorem crawlRun_cases [DecidableEq α] (fetch : α → Option Page)
    (resolve : α → List Char → α) (start : α) :
    crawlRun fetch resolve start = ⟨[], [], [], [], [], [start], 0⟩ ∨
      ∃ v q, crawlRun fetch resolve start =
        crawlLoop fetch resolve 50 ⟨v, q, [], [], [], [start], 0⟩ := by
  cases hf : fetch start with
  | none => exact Or.inl (crawlRun_fail resolve start hf)
  | some p =>
    cases hm : findMoreHref p.anchors with
    | none => exact Or.inr ⟨[], [start], crawlRun_noMore resolve hf hm⟩
    | some h =>
      by_cases hne : resolve start h = start
      · exact Or.inr ⟨[], [start], crawlRun_moreSame resolve hf hm hne⟩
      · exact Or.inr ⟨[start], [resolve start h], crawlRun_more resolve hf hm hne⟩

/-!
## Container-selector analysis
-/

theorem bestOf_some_ne_none (t : Nat) :
    ∀ (cands : List (List Anchor)) (x : List Anchor) (m : Nat),
      (bestOf t cands (some x, m)).1 ≠ none := by
  intro cands
  induction cands with
  | nil =>
    intro x m
    simp [bestOf]
  | cons c rest ih =>
    intro x m
    simp only [bestOf]
    by_cases hc : t < c.length ∧ m < c.length
    · rw [if_pos hc]
      exact ih c c.length
    · rw [if_neg hc]
      exact ih x m

theorem bestOf_none_iff (t : Nat) :
    ∀ (cands : List (List Anchor)),
      (bestOf t cands (none, 0)).1 = none ↔ ∀ c ∈ cands, c.length ≤ t := by
  intro cands
  induction cands with
  | nil => simp [bestOf]
  | cons c rest ih =>
    simp only [bestOf]
    by_cases hc : t < c.length ∧ 0 < c.length
    · rw [if_pos hc]
      constructor
      · intro h
        exact absurd h (bestOf_some_ne_none t rest c c.length)
      · intro h
        exact absurd (h c (List.mem_cons_self _ _)) (by omega)
    · rw [if_neg hc]
      have hle : c.length ≤ t := by omega
      rw [ih]
      constructor
      · intro h x hx
        rcases List.mem_cons.1 hx with rfl | hxm
        · exact hle
        · exact h x hxm
      · intro h x hx
        exact h x (List.mem_cons_of_mem _ hx)

theorem bestOf_max (t : Nat) :
    ∀ (cands : List (List Anchor)) (b : Option (List Anchor)) (m : Nat),
      m ≤ (bestOf t cands (b, m)).2 ∧
        ∀ d ∈ cands, t < d.length → d.length ≤ (bestOf t cands (b, m)).2 := by
  intro cands
  induction cands with
  | nil =>
    intro b m
    exact ⟨Nat.le_refl m, by simp⟩
  | cons c rest ih =>
    intro b m
    simp only [bestOf]
    by_cases hc : t < c.length ∧ m < c.length
    · rw [if_pos hc]
      obtain ⟨h1, h2⟩ := ih (some c) c.length
      refine ⟨le_trans (Nat.le_of_lt hc.2) h1, ?_⟩
      intro d hd _
      rcases List.mem_cons.1 hd with rfl | hdm
      · exact h1
      · by_cases hq : t < d.length
        · exact h2 d hdm hq
        · have : d.length ≤ t := by omega
          omega
    · rw [if_neg hc]
      obtain ⟨h1, h2⟩ := ih b m
      refine ⟨h1, ?_⟩
      intro d hd hq
      rcases List.mem_cons.1 hd with rfl | hdm
      · have : d.length ≤ m := by omega
        omega
      · exact h2 d hdm hq

theorem bestOf_some_spec (t : Nat) :
    ∀ (cands : List (List Anchor)) (b : Option (List Anchor)) (m : Nat),
      (∀ x, b = some x → m = x.length) →
      ∀ l, (bestOf t cands (b, m)).1 = some l →
        (bestOf t cands (b, m)).2 = l.length ∧
          (b = some l ∨ (l ∈ cands ∧ t < l.length)) := by
  intro cands
  induction cands with
  | nil =>
    intro b m hb l hl
    simp only [bestOf] at hl ⊢
    exact ⟨hb l hl, Or.inl hl⟩
  | cons c rest ih =>
    intro b m hb l hl
    simp only [bestOf] at hl ⊢
    by_cases hc : t < c.length ∧ m < c.length
    · rw [if_pos hc] at hl ⊢
      obtain ⟨h1, h2⟩ := ih (some c) c.length (by intro x hx; cases hx; rfl) l hl
      refine ⟨h1, ?_⟩
      rcases h2 with h2 | h2
      · cases h2
        exact Or.inr ⟨List.mem_cons_self _ _, hc.1⟩
      · exact Or.inr ⟨List.mem_cons_of_mem _ h2.1, h2.2⟩
    · rw [if_neg hc] at hl ⊢
      obtain ⟨h1, h2⟩ := ih b m hb l hl
      refine ⟨h1, ?_⟩
      rcases h2 with h2 | h2
      · exact Or.inl h2
      · exact Or.inr ⟨List.mem_cons_of_mem _ h2.1, h2.2⟩

theorem selectorBest_none_iff (p : Page) :
    selectorBest p = none ↔ ∀ c ∈ p.selectorContainers, c.length = 0 := by
  rw [selectorBest, bestOf_none_iff]
  simp [Nat.le_zero]

theorem divBest_none_iff (p : Page) :
    divBest p = none ↔ ∀ d ∈ p.divContainers, d.length ≤ 20 := by
  rw [divBest, bestOf_none_iff]

theorem divBest_some_spec (p : Page) (l : List Anchor) (hl : divBest p = some l) :
    l ∈ p.divContainers ∧ 20 < l.length ∧
      ∀ d ∈ p.divContainers, d.length ≤ l.length := by
  have hspec := bestOf_some_spec 20 p.divContainers none 0 (by intro x hx; cases hx) l hl
  have hmax := bestOf_max 20 p.divContainers none 0
  rcases hspec.1 with h2
  rcases hspec.2 with h | h
  · cases h
  · refine ⟨h.1, h.2, ?_⟩
    intro d hd
    by_cases hq : 20 < d.length
    · have := hmax.2 d hd hq
      omega
    · omega

/-!
## The spec claims
-/

/-- C1: for every crawl run, the returned chapter sequence contains no two
entries with equal `url`, and it is exactly the first-occurrence dedup of
the sequence of classifier-accepted candidates (across pages and within
each page's extraction pass): when the same resolved URL is produced more
than once, only the first occurrence is kept. -/
theorem claim_C1 {α : Type} [DecidableEq α] (fetch : α → Option Page)
    (resolve : α → List Char → α) (start : α) :
    ((parse_chapters fetch resolve start).map Chapter.url).Nodup ∧
      parse_chapters fetch resolve start =
        dedupFrom [] (crawlRun fetch resolve start).produced := by
  have hmain : (crawlRun fetch resolve start).chapters =
      dedupFrom [] (crawlRun fetch resolve start).produced := by
    rcases crawlRun_cases fetch resolve start with h | ⟨v, q, h⟩
    · rw [h]
      rfl
    · rw [h]
      exact crawlLoop_dedup fetch resolve 50 _ rfl
  refine ⟨?_, hmain⟩
  rw [parse_chapters, hmain]
  exact nodup_dedupFrom _ _

/-- C1 witness: the theorem applied to a concrete run. -/
theorem claim_C1_witness :
    ((parse_chapters w8Fetch w8Resolve 0).map Chapter.url).Nodup ∧
      parse_chapters w8Fetch w8Resolve 0 =
        dedupFrom [] (crawlRun w8Fetch w8Resolve 0).produced :=
  claim_C1 w8Fetch w8Resolve 0

/-- C2: any text containing an exclusion keyword is rejected, regardless
of the href and of any inclusion pattern the text may also match. -/
theorem claim_C2 (text href : List Char)
    (h : ∃ k ∈ exclude_keywords, containsSub k text = true) :
    is_chapter_link text href = false := by
  have hany : exclude_keywords.any (fun k => containsSub k text) = true := by
    rcases h with ⟨k, hk, hc⟩
    exact List.any_eq_true.2 ⟨k, hk, hc⟩
  simp [is_chapter_link, hany]

/-- C2 witness: 下一页 第1章 contains the exclusion keyword 下一页 and is
rejected even though it matches the chapter-marker inclusion pattern. -/
theorem claim_C2_witness :
    (∃ k ∈ exclude_keywords, containsSub k exNextMarkerText = true) ∧
      hasMarker exNextMarkerText = true ∧
      is_chapter_link exNextMarkerText [] = false :=
  ⟨by decide, by decide, claim_C2 exNextMarkerText [] (by decide)⟩

/-- C3: on texts free of exclusion keywords, the classifier accepts
exactly the texts matching the chapter-marker pattern, or starting with
digits followed by a period/whitespace/ideographic comma, or consisting
solely of digits, or longer than 2 characters; and the spec's concrete
examples evaluate as stated. -/
theorem claim_C3 :
    (∀ text href : List Char,
      (∀ k ∈ exclude_keywords, containsSub k text = false) →
      (is_chapter_link text href = true ↔
        MarkerMatch text ∨ DigitsThenSep text ∨ PureDigits text ∨
          2 < text.length)) ∧
    is_chapter_link exMarkerText [] = true ∧
    is_chapter_link exDigitsText [] = true ∧
    is_chapter_link exNumSepText [] = true ∧
    is_chapter_link exMoreText [] = false := by
  refine ⟨?_, by decide, by decide, by decide, by decide⟩
  intro text href hex
  have hany : exclude_keywords.any (fun k => containsSub k text) = false :=
    List.any_eq_false.2 (fun k hk => by simp [hex k hk])
  rw [is_chapter_link_or text href hany]
  simp only [Bool.or_eq_true, hasMarker_iff, startsNumSep_iff, allDigits_iff,
    decide_eq_true_eq]
  tauto

/-- C3 witness: the characterization applied to 第12章 启程. -/
theorem claim_C3_witness :
    is_chapter_link exMarkerText [] = true ↔
      MarkerMatch exMarkerText ∨ DigitsThenSep exMarkerText ∨
        PureDigits exMarkerText ∨ 2 < exMarkerText.length :=
  claim_C3.1 exMarkerText [] (by decide)

/-- C4: the crawl is total and its breadth-first walk never performs more
than 50 page visits; on the synthetic unbounded chain of distinct
next-page links it performs exactly 50 page visits before returning. -/
theorem claim_C4 :
    (∀ {α : Type} [DecidableEq α] (fetch : α → Option Page)
        (resolve : α → List Char → α) (start : α),
      (crawlRun fetch resolve start).pageCount ≤ 50) ∧
    (crawlRun chainFetch chainResolve 0).pageCount = 50 := by
  constructor
  · intro α _ fetch resolve start
    rcases crawlRun_cases fetch resolve start with h | ⟨v, q, h⟩
    · rw [h]
      exact Nat.zero_le 50
    · rw [h]
      have hle := crawlLoop_pageCount fetch resolve 50 ⟨v, q, [], [], [], [start], 0⟩
      simpa using hle
  · decide

/-- C5: when the start page yields a catalog link (first anchor whose text
contains 查看更多/全部章节/完整目录 with a present, non-`#`, non-script
href) resolving to a URL different from the start URL, the walk is seeded
with that URL, the start URL is pre-marked visited, and consequently the
start URL is passed to the fetcher exactly once (for detection only) —
chapters are never extracted from the start page itself. -/
theorem claim_C5 {α : Type} [DecidableEq α] (fetch : α → Option Page)
    (resolve : α → List Char → α) (start : α) (p : Page) (h : List Char)
    (hf : fetch start = some p) (hm : findMoreHref p.anchors = some h)
    (hne : resolve start h ≠ start) :
    crawlRun fetch resolve start =
      crawlLoop fetch resolve 50
        ⟨[start], [resolve start h], [], [], [], [start], 0⟩ ∧
    (crawlRun fetch resolve start).fetched.count start = 1 := by
  have heq := crawlRun_more resolve hf hm hne
  refine ⟨heq, ?_⟩
  rw [heq]
  obtain ⟨new, h1, h2, h3⟩ := crawlLoop_fetched fetch resolve 50
    ⟨[start], [resolve start h], [], [], [], [start], 0⟩
  rw [h1]
  have hstart : start ∉ new := fun hmem =>
    h3 start hmem (List.mem_cons_self start [])
  rw [List.count_append, List.count_eq_zero.2 hstart]
  simp

/-- C5 witness: a concrete site whose start page links 查看更多章节 to
`/full.html`. -/
theorem claim_C5_witness :
    crawlRun w5Fetch w5Resolve 0 =
      crawlLoop w5Fetch w5Resolve 50
        ⟨[0], [w5Resolve 0 w5Href], [], [], [], [0], 0⟩ ∧
    (crawlRun w5Fetch w5Resolve 0).fetched.count 0 = 1 :=
  claim_C5 w5Fetch w5Resolve 0 w5StartPage w5Href (by decide) (by decide)
    (by decide)

/-- C6 counterexample: on a site with no catalog link the start URL is
fetched twice — once by the detection phase and once by the walk — so
"every URL is fetched at most once over the whole run" fails. -/
theorem claim_C6_counterexample :
    ¬ ((crawlRun plainFetch idResolve 0).fetched.count 0 ≤ 1) := by
  decide

/-- C6 (amended): during one crawl the breadth-first walk fetches each URL
at most once (its fetch sequence is duplicate-free); the start URL is
additionally fetched once, up front, for catalog-redirect detection, so
the start URL alone may be fetched twice over the whole run. -/
theorem claim_C6_amended {α : Type} [DecidableEq α] (fetch : α → Option Page)
    (resolve : α → List Char → α) (start : α) :
    ∃ walkFetches, (crawlRun fetch resolve start).fetched =
      start :: walkFetches ∧ walkFetches.Nodup := by
  rcases crawlRun_cases fetch resolve start with h | ⟨v, q, h⟩
  · exact ⟨[], by rw [h], List.nodup_nil⟩
  · obtain ⟨new, h1, h2, h3⟩ := crawlLoop_fetched fetch resolve 50
      ⟨v, q, [], [], [], [start], 0⟩
    refine ⟨new, ?_, h2⟩
    rw [h, h1]
    rfl

/-- C6 amended witness: the amended statement at a concrete run. -/
theorem claim_C6_amended_witness :
    ∃ walkFetches, (crawlRun plainFetch idResolve 0).fetched =
      0 :: walkFetches ∧ walkFetches.Nodup :=
  claim_C6_amended plainFetch idResolve 0

/-- C7 counterexample: a page whose only selector match holds zero
anchors — a selector yields a match, yet the whole-document div scan is
still performed (the selector phase selected no container), refuting the
claimed "if and only if no selector yields any match". -/
theorem claim_C7_counterexample :
    ¬ ((selectorBest scanPage = none) ↔ scanPage.selectorContainers = []) := by
  decide

/-- C7 (amended): the whole-document div scan is consulted if and only if
every selector match (in particular, when there is none) has zero
descendant anchors; a division qualifies only with more than 20 descendant
anchors and the qualifying division with the maximum anchor count is
chosen; if the scan also yields nothing, no container is returned and the
whole page is used as the anchor pool. -/
theorem claim_C7_amended (p : Page) :
    ((selectorBest p = none) ↔ ∀ c ∈ p.selectorContainers, c.length = 0) ∧
    ((divBest p = none) ↔ ∀ d ∈ p.divContainers, d.length ≤ 20) ∧
    (selectorBest p = none → divBest p = none →
      bestContainer p = none ∧ targetAnchors p = p.anchors) ∧
    (∀ l, divBest p = some l → l ∈ p.divContainers ∧ 20 < l.length ∧
      ∀ d ∈ p.divContainers, d.length ≤ l.length) := by
  refine ⟨selectorBest_none_iff p, divBest_none_iff p, ?_, ?_⟩
  · intro h1 h2
    have hbc : bestContainer p = none := by
      rw [bestContainer, h1]
      exact h2
    refine ⟨hbc, ?_⟩
    rw [targetAnchors, hbc]
    rfl
  · intro l hl
    exact divBest_some_spec p l hl

/-- C7 amended witness: on the counterexample page nothing qualifies, so
the whole page is the anchor pool. -/
theorem claim_C7_amended_witness :
    bestContainer scanPage = none ∧ targetAnchors scanPage = scanPage.anchors :=
  (claim_C7_amended scanPage).2.2.1 (by decide) (by decide)

/-- C8: the final sequence is exactly the concatenation of the per-page
passes in visit order, hence every pass — whose chapters are accepted in
anchor-document order — occurs contiguously in the final sequence: if A is
accepted before B in the same extraction pass, A precedes B in the final
result. -/
theorem claim_C8 {α : Type} [DecidableEq α] (fetch : α → Option Page)
    (resolve : α → List Char → α) (start : α) :
    (crawlRun fetch resolve start).chapters =
      (crawlRun fetch resolve start).passes.flatten ∧
    ∀ pass ∈ (crawlRun fetch resolve start).passes,
      pass <:+: (crawlRun fetch resolve start).chapters := by
  have hmain : (crawlRun fetch resolve start).chapters =
      (crawlRun fetch resolve start).passes.flatten := by
    rcases crawlRun_cases fetch resolve start with h | ⟨v, q, h⟩
    · rw [h]
      rfl
    · rw [h]
      exact crawlLoop_flatten fetch resolve 50 _ rfl
  refine ⟨hmain, ?_⟩
  intro pass hp
  rw [hmain]
  exact List.infix_of_mem_flatten hp

/-- C8 witness: a concrete page contributing a two-chapter pass that
occurs, in order, inside the final sequence. -/
theorem claim_C8_witness :
    [⟨w8TitleOne, 1⟩, ⟨w8TitleTwo, 2⟩] <:+: (crawlRun w8Fetch w8Resolve 0).chapters :=
  (claim_C8 w8Fetch w8Resolve 0).2 [⟨w8TitleOne, 1⟩, ⟨w8TitleTwo, 2⟩] (by decide)

/-- C9: a fetch failure on the start URL yields the empty chapter
sequence (and the run performs no page visits at all); in the embedding
the walker is a total function, so no failure can raise. -/
theorem claim_C9 {α : Type} [DecidableEq α] (fetch : α → Option Page)
    (resolve : α → List Char → α) (start : α) (hf : fetch start = none) :
    parse_chapters fetch resolve start = [] ∧
      crawlRun fetch resolve start = ⟨[], [], [], [], [], [start], 0⟩ := by
  have h := crawlRun_fail resolve start hf
  exact ⟨by rw [parse_chapters, h], h⟩

/-- C9 witness: a simulated transport error on the seeded URL. -/
theorem claim_C9_witness :
    parse_chapters failFetch idResolve 0 = [] ∧
      crawlRun failFetch idResolve 0 = ⟨[], [], [], [], [], [0], 0⟩ :=
  claim_C9 failFetch idResolve 0 rfl

/-- C10: the classifier never inspects its href argument — its result is
identical for any two hrefs. -/
theorem claim_C10 (text h1 h2 : List Char) :
    is_chapter_link text h1 = is_chapter_link text h2 := rfl

end NovelReader
